import Mathlib

/-!
Verification development for the `grabby` removable-media ingestion daemon.

The Python sources (`grabby.py`, `config.py`, `organizer.py`, `const.py`,
`homeassistant.py`) are shallowly embedded below.  External effects are made
explicit parameters:

* the card's filesystem is a function from a grab's source-subfolder path to
  the list of entry names that `Path.iterdir` yields there;
* mounting is a boolean outcome (`mount_device` succeeds or raises);
* the media-metadata extractor (`pymediainfo`) and the date parser
  (`dateutil` plus the time-zone machinery) are modelled by a `MediaEnv`
  record giving, per file, the parsed tracks (or a parse exception) and, per
  sanitized date string, the parse/convert outcome;
* Home-Assistant pushes are recorded as a list of `AppState` snapshots.

Machine integers do not overflow in the modelled code (progress counters and
dates are small), so `Nat` is used directly.  Exceptions are modelled with
`Except` / explicit error flags.
-/

/-- Python exception classes that the modelled code can raise. -/
inductive PyErr where
  | valueError
  | indexError
  | keyError
  | mediaParseError
  | overflowError
deriving DecidableEq, Repr

/-! ## String helpers (ASCII models of the Python `str` methods used) -/

/-- ASCII lower-casing of one character, as `str.lower` does on ASCII input. -/
def lowerChar (c : Char) : Char :=
  if 'A' ≤ c ∧ c ≤ 'Z' then Char.ofNat (c.toNat + 32) else c

/-- ASCII upper-casing of one character, as `str.upper` does on ASCII input. -/
def upperChar (c : Char) : Char :=
  if 'a' ≤ c ∧ c ≤ 'z' then Char.ofNat (c.toNat - 32) else c

/-- `str.lower` (ASCII fragment). -/
def toLowerStr (s : String) : String := String.mk (s.data.map lowerChar)

/-- `str.upper` (ASCII fragment). -/
def toUpperStr (s : String) : String := String.mk (s.data.map upperChar)

/-- `str.endswith` for a single suffix. -/
def endsWithStr (s suf : String) : Bool := List.isSuffixOf suf.data s.data

/-- Characters removed by Python `str.strip()` with no argument. -/
def isSpaceCh (c : Char) : Bool :=
  c.toNat = 32 ∨ c.toNat = 9 ∨ c.toNat = 10 ∨ c.toNat = 13 ∨ c.toNat = 11 ∨ c.toNat = 12

/-- Python `str.strip()`. -/
def stripList (l : List Char) : List Char :=
  ((l.dropWhile isSpaceCh).reverse.dropWhile isSpaceCh).reverse

/-- One fuel-indexed step list for `str.replace(old, "")`: removes
left-to-right non-overlapping occurrences of `pat`.  The fuel is the input
length, which suffices because each step consumes at least one character when
`pat` is nonempty. -/
def removeOccAux (pat : List Char) : Nat → List Char → List Char
  | 0, l => l
  | _ + 1, [] => []
  | fuel + 1, c :: rest =>
    if List.isPrefixOf pat (c :: rest) then
      removeOccAux pat fuel ((c :: rest).drop pat.length)
    else
      c :: removeOccAux pat fuel rest

/-- Python `s.replace(pat, "")`.  The config never supplies an empty noise
substring; an empty `pat` is modelled as the identity. -/
def removeOcc (pat l : List Char) : List Char :=
  if pat = [] then l else removeOccAux pat l.length l

/-- Python `str.split('.')`: always returns at least one (possibly empty) part. -/
def splitOnDot : List Char → List (List Char)
  | [] => [[]]
  | c :: rest =>
    match splitOnDot rest with
    | [] => [[]]
    | h :: t => if c = '.' then [] :: h :: t else (c :: h) :: t

/-- `pathlib.PurePath.suffixes` of a file name: strip leading dots, split on
dots, and every part after the first becomes a dot-prefixed suffix. -/
def suffixesOf (name : String) : List String :=
  ((splitOnDot (name.data.dropWhile (fun c => c = '.'))).drop 1).map
    (fun p => String.mk ('.' :: p))

/-- Zero-pad a natural to at least two digits (`f"{n:02d}"`). -/
def pad2 (n : Nat) : String := if n < 10 then "0" ++ toString n else toString n

/-- Zero-pad a natural to at least five digits (`f"{n:05d}"`). -/
def pad5 (n : Nat) : String :=
  String.mk (List.replicate (5 - (toString n).data.length) '0') ++ toString n

/-- `f"{year}{month:02d}{day:02d}"`. -/
def dateStr (y m d : Nat) : String := toString y ++ pad2 m ++ pad2 d

/-! ## Organizer data model (`organizer.py`) -/

/-- `organizer.MediaInfoTag`. -/
structure MediaInfoTag where
  group : String
  name : String
  tz : String
  substrs : Option (List String)
deriving DecidableEq, Repr

/-- `organizer.RenameMethod` (an `IntEnum` in the source). -/
inductive RenameMethod where
  | NONE
  | TREE
  | OVERWRITE
deriving DecidableEq, Repr

/-- The `IntEnum` value of a rename method (`NONE = 0, TREE = 1, OVERWRITE = 2`). -/
def RenameMethod.value : RenameMethod → Nat
  | .NONE => 0
  | .TREE => 1
  | .OVERWRITE => 2

/-- One track of a parsed media container: its `track_type` and the
attributes `getattr` can read from it. -/
structure MediaTrack where
  track_type : String
  attrs : List (String × String)
deriving DecidableEq, Repr

/-- Outcome of `dateutil_parse` on a sanitized date string, combined with the
subsequent time-zone conversion to a local `(year, month, day)`.  `valueError`
is the `ValueError` the source catches; `otherError` stands for any other
exception (e.g. `OverflowError`), which the source does not catch. -/
inductive DtResult where
  | ok (y m d : Nat)
  | valueError
  | otherError
deriving DecidableEq, Repr

/-- Environment abstracting the external libraries used by date derivation:
`tzOk` is whether `gettz`/`tzlocal` succeed, `parse` is `MediaInfo.parse`
(`none` means it raised), and `dtParse` is the date-string parse/convert. -/
structure MediaEnv where
  tzOk : Bool
  parse : String → Option (List MediaTrack)
  dtParse : String → DtResult

/-- `organizer.sanitize_datetime_string`. -/
def sanitize_datetime_string (s : String) (substrs : Option (List String)) : String :=
  String.mk (stripList ((substrs.getD []).foldl (fun acc sub => removeOcc sub.data acc) s.data))

/-- The attribute name read from a track: `media_tag.name.replace(" ", "_").lower()`. -/
def normalizeTagName (n : String) : String :=
  String.mk (n.data.map (fun c => if c = ' ' then '_' else lowerChar c))

/-- `getattr(track, attr, None)` over the modelled attribute list. -/
def lookupAttr (attrs : List (String × String)) (k : String) : Option String :=
  (attrs.find? (fun kv => kv.1 == k)).map (fun kv => kv.2)

/-- The `for track in media_info.tracks` loop body of
`get_local_date_from_media_info`: the first track whose type equals the tag
group and whose attribute is present and non-empty decides the outcome; a
`ValueError` from date parsing is caught and yields `None`, any other parse
exception escapes. -/
def loopTracks (env : MediaEnv) (tag : MediaInfoTag) :
    List MediaTrack → Except PyErr (Option (Nat × Nat × Nat))
  | [] => .ok none
  | t :: rest =>
    if t.track_type = tag.group then
      match lookupAttr t.attrs (normalizeTagName tag.name) with
      | some s =>
        if s ≠ "" then
          match env.dtParse (sanitize_datetime_string s tag.substrs) with
          | .ok y m d => .ok (some (y, m, d))
          | .valueError => .ok none
          | .otherError => .error .overflowError
        else loopTracks env tag rest
      | none => loopTracks env tag rest
    else loopTracks env tag rest

/-- `organizer.get_local_date_from_media_info`.  A time-zone setup failure
raises `ValueError`; a `MediaInfo.parse` failure raises out unguarded. -/
def get_local_date_from_media_info (env : MediaEnv) (filePath : String)
    (tag : MediaInfoTag) : Except PyErr (Option (Nat × Nat × Nat)) :=
  if env.tzOk then
    match env.parse filePath with
    | none => .error .mediaParseError
    | some tracks => loopTracks env tag tracks
  else .error .valueError

/-- One direct entry of the directory being organized: its name, whether it
is a regular file, and the local calendar date of its `st_mtime`. -/
structure FsEntry where
  name : String
  isFile : Bool
  mtime : Nat × Nat × Nat
deriving DecidableEq, Repr

/-- A recorded move: source name, destination directory components relative
to the organized directory, and the new file name. -/
structure OrgMove where
  src : String
  destDir : List String
  destName : String
deriving DecidableEq, Repr

/-- The TREE layout components `[str(year), f"{month:02d}", f"{day:02d}"]`. -/
def treeDirOf (d : Nat × Nat × Nat) : List String :=
  [toString d.1, pad2 d.2.1, pad2 d.2.2]

/-- Destination-folder computation per file (source lines 125-133): TREE uses
the mtime date's tree, OVERWRITE stays in place, anything else raises
`ValueError`. -/
def destComponents (method : RenameMethod) (d : Nat × Nat × Nat) :
    Except PyErr (List String) :=
  match method with
  | .TREE => .ok (treeDirOf d)
  | .OVERWRITE => .ok []
  | .NONE => .error .valueError

/-- Suffix collapsing (source lines 135-137): remove every suffix occurrence
from the name. -/
def collapsedStem (name : String) : String :=
  String.mk ((suffixesOf name).foldl (fun acc suf => removeOcc suf.data acc) name.data)

/-- Media-tag naming step (source lines 142-152): returns `none` when no
media date was derived, propagating derivation exceptions. -/
def mediaNewName (env : MediaEnv) (prefixMode : Bool) (tag : Option MediaInfoTag)
    (idx : Nat) (e : FsEntry) (collapsed lastSuf : String) :
    Except PyErr (Option String) :=
  match tag with
  | none => .ok none
  | some t =>
    match get_local_date_from_media_info env e.name t with
    | .error er => .error er
    | .ok none => .ok none
    | .ok (some (y, m, d)) =>
      .ok (some (if prefixMode then dateStr y m d ++ "_" ++ collapsed
                 else dateStr y m d ++ "-" ++ pad5 idx ++ lastSuf))

/-- mtime-based naming (source lines 155-161). -/
def mtimeName (prefixMode : Bool) (d : Nat × Nat × Nat) (idx : Nat)
    (collapsed lastSuf : String) : String :=
  if prefixMode then dateStr d.1 d.2.1 d.2.2 ++ "_" ++ collapsed
  else dateStr d.1 d.2.1 d.2.2 ++ "-" ++ pad5 idx ++ lastSuf

/-- Processing of one regular file inside `organize_files_in_place`
(source lines 114-176).  `idx` is the 1-based sequence counter. -/
def processFile (env : MediaEnv) (method : RenameMethod) (prefixMode useMtime : Bool)
    (tag : Option MediaInfoTag) (idx : Nat) (e : FsEntry) : Except PyErr OrgMove :=
  match destComponents method e.mtime with
  | .error er => .error er
  | .ok dirComps =>
    match (suffixesOf e.name).getLast? with
    | none => .error .indexError
    | some lastSuf =>
      let collapsed := collapsedStem e.name ++ lastSuf
      match mediaNewName env prefixMode tag idx e collapsed lastSuf with
      | .error er => .error er
      | .ok newFromMedia =>
        let newName :=
          match newFromMedia with
          | some n => n
          | none =>
            if useMtime then mtimeName prefixMode e.mtime idx collapsed lastSuf
            else collapsed
        .ok ⟨e.name, dirComps, newName⟩

/-- The `for file_path in directory.iterdir()` loop of
`organize_files_in_place`: directories are skipped without advancing the
sequence counter; the first per-file exception aborts the whole loop. -/
def organizeGo (env : MediaEnv) (method : RenameMethod) (prefixMode useMtime : Bool)
    (tag : Option MediaInfoTag) : List FsEntry → Nat → List OrgMove →
    Except PyErr (List OrgMove)
  | [], _, acc => .ok acc
  | e :: rest, idx, acc =>
    if e.isFile then
      match processFile env method prefixMode useMtime tag (idx + 1) e with
      | .error er => .error er
      | .ok mv => organizeGo env method prefixMode useMtime tag rest (idx + 1) (acc ++ [mv])
    else organizeGo env method prefixMode useMtime tag rest idx acc

/-- `organizer.organize_files_in_place` over the direct entries of an
existing directory, returning the list of performed moves (the `NotFound`
check for a missing directory is outside the modelled scope: the directory's
entry list is given). -/
def organize_files_in_place (env : MediaEnv) (entries : List FsEntry)
    (method : RenameMethod) (prefixMode useMtime : Bool)
    (tag : Option MediaInfoTag) : Except PyErr (List OrgMove) :=
  organizeGo env method prefixMode useMtime tag entries 0 []

/-! ## Config data model (`config.py` / `const.py`) -/

/-- `config.ChownIds`; the source builds it with `chown.get('user')` /
`chown.get('group')`, which may be `None`. -/
structure ChownIds where
  user : Option String
  group : Option String
deriving DecidableEq, Repr

/-- `config.GrabConfig`.  The field `prefixMode` is the source's
`rename_as_prefix`. -/
structure GrabConfig where
  path : String
  never_delete : Bool
  types : List String
  rename_method : RenameMethod
  prefixMode : Bool
  mtime : Bool
  media_tag : Option MediaInfoTag
deriving DecidableEq, Repr

/-- `config.AppConfig` (the Home-Assistant connection settings are outside
the modelled ingestion core); paths are kept as strings. -/
structure AppConfig where
  delete_after_copy : Bool
  destination_base : String
  mount_base : String
  grabs : List GrabConfig
  log_level : Nat
  chown : Option ChownIds
deriving DecidableEq, Repr

/-- `const.DEFAULT_DESTINATION_BASE` (`Path.home() / 'grabby' / 'grabs'`). -/
def defaultDestinationBase : String := "HOME/grabby/grabs"

/-- `const.DEFAULT_MOUNT_BASE` (`Path.home() / 'grabby' / 'mounts'`). -/
def defaultMountBase : String := "HOME/grabby/mounts"

/-- `logging._nameToLevel.get(log_level, DEFAULT_LOG_LEVEL)` with the
standard level table and `INFO = 20` as the default. -/
def nameToLevel : Option String → Nat
  | some "CRITICAL" => 50
  | some "FATAL" => 50
  | some "ERROR" => 40
  | some "WARN" => 30
  | some "WARNING" => 30
  | some "INFO" => 20
  | some "DEBUG" => 10
  | some "NOTSET" => 0
  | _ => 20

/-- Raw `mediainfo` sub-mapping of a grab's `rename` section as parsed from
YAML: `group`/`name`/`tz` are accessed with `[]` (missing means `KeyError`,
caught locally), `substrs` with `.get`. -/
structure RawMediaInfo where
  group : Option String
  name : Option String
  tz : Option String
  substrs : Option (List String)
deriving DecidableEq, Repr

/-- Raw `rename` section of one grab. -/
structure RawRename where
  method : Option String
  as_prefixFlag : Option Bool
  has_mtime : Bool
  mediainfo : Option RawMediaInfo
deriving DecidableEq, Repr

/-- Raw grab mapping (everything read with `.get` and a default). -/
structure RawGrab where
  never_delete : Option Bool
  types : Option (List String)
  rename : Option RawRename
deriving DecidableEq, Repr

/-- The parsed YAML document handed to `AppConfigFile.load`: `none` fields
were absent from the mapping.  `grabs = none` models a document without the
`grabs` key, whose `raw_config['grabs']` access raises `KeyError`. -/
structure RawConfig where
  delete_after_copy : Option Bool
  destination_base : Option String
  mount_base : Option String
  log_level : Option String
  chown : Option (Option String × Option String)
  grabs : Option (List (String × RawGrab))
deriving Repr

/-- `RenameMethod[name]` lookup by enum member name; `none` is the
`KeyError` the source does not catch. -/
def parseRenameMethod (s : String) : Option RenameMethod :=
  if s = "NONE" then some .NONE
  else if s = "TREE" then some .TREE
  else if s = "OVERWRITE" then some .OVERWRITE
  else none

/-- Parsing of one grab entry (source lines 132-165); `none` when the
`RenameMethod[rename_method.upper()]` lookup raises `KeyError`. -/
def parseGrab (path : String) (g : RawGrab) : Option GrabConfig :=
  let parsed :=
    match g.rename with
    | none => ("NONE", true, false, (none : Option MediaInfoTag))
    | some r =>
      let mtag :=
        match r.mediainfo with
        | none => none
        | some mi =>
          match mi.group, mi.name, mi.tz with
          | some gg, some nn, some tt => some (⟨gg, nn, tt, mi.substrs⟩ : MediaInfoTag)
          | _, _, _ => none
      (r.method.getD "NONE", r.as_prefixFlag.getD true, r.has_mtime, mtag)
  match parseRenameMethod (toUpperStr parsed.1) with
  | none => none
  | some m =>
    some ⟨path, g.never_delete.getD false, (g.types.getD []).map toLowerStr,
          m, parsed.2.1, parsed.2.2.1, parsed.2.2.2⟩

/-- The `for path in raw_config['grabs']` loop: on a `KeyError` the grabs
appended before the failing entry are already in the live `grabs` list. -/
def parseGrabs : List (String × RawGrab) → List GrabConfig × Option PyErr
  | [] => ([], none)
  | (p, g) :: rest =>
    match parseGrab p g with
    | none => ([], some .keyError)
    | some gc =>
      match parseGrabs rest with
      | (gcs, er) => (gc :: gcs, er)

/-- `destination_base`/`mount_base` resolution: a present, non-empty (truthy)
string wins, otherwise the default. -/
def pickPath (o : Option String) (dflt : String) : String :=
  match o with
  | some s => if s = "" then dflt else s
  | none => dflt

/-- `AppConfigFile.load` after the YAML file has been read and parsed
successfully: the stored `AppConfig` is mutated field by field in source
order, so a failure partway (here: a missing `grabs` key or an invalid
rename-method name) leaves the earlier fields already updated.  Returns the
resulting in-memory config and the escaped exception, if any. -/
def loadConfig (cfg : AppConfig) (raw : RawConfig) : AppConfig × Option PyErr :=
  let cfg := { cfg with delete_after_copy := raw.delete_after_copy.getD true }
  let cfg := { cfg with destination_base := pickPath raw.destination_base defaultDestinationBase }
  let cfg := { cfg with mount_base := pickPath raw.mount_base defaultMountBase }
  let cfg := { cfg with log_level := nameToLevel raw.log_level }
  let cfg := { cfg with
    chown := raw.chown.map (fun (uc : Option String × Option String) => ChownIds.mk uc.1 uc.2) }
  let cfg := { cfg with grabs := [] }
  match raw.grabs with
  | none => (cfg, some PyErr.keyError)
  | some gs =>
    match parseGrabs gs with
    | (gcs, er) => ({ cfg with grabs := gcs }, er)

/-! ## Ingestion pipeline (`grabby.py`) -/

/-- `const.AppStatus`. -/
inductive AppStatus where
  | ERROR
  | READY
  | BUSY
deriving DecidableEq, Repr

/-- `grabby.AppState`: the process-wide state snapshot pushed to the
notifier. -/
structure AppState where
  status : AppStatus
  media_count : Nat
  progress : Nat
  card_id : String
deriving DecidableEq, Repr

/-- A matched source file: the grab subfolder it was found in and its name
(the source keeps the full `Path`, from which both are recoverable). -/
structure SrcFile where
  grabPath : String
  name : String
deriving DecidableEq, Repr

/-- `src_file.name.lower().endswith(tuple(grab.types))`. -/
def matchesTypes (name : String) (types : List String) : Bool :=
  types.any (fun t => endsWithStr (toLowerStr name) t)

/-- The files a grab matches during the scan pass, in directory order. -/
def grabMatched (card : String → List String) (g : GrabConfig) : List SrcFile :=
  ((card g.path).filter (fun n => matchesTypes n g.types)).map
    (fun n => ⟨g.path, n⟩)

/-- The weight one grab adds to `total_progress`: 1 for overhead, 1 if its
rename method is active, 1 per matched file. -/
def grabWeight (card : String → List String) (g : GrabConfig) : Nat :=
  1 + (if 0 < RenameMethod.value g.rename_method then 1 else 0) + (grabMatched card g).length

/-- `src_file_list` after the scan pass: the concatenation of every grab's
matched files, in config order. -/
def scanFiles (card : String → List String) (grabs : List GrabConfig) : List SrcFile :=
  (grabs.map (grabMatched card)).flatten

/-- `total_progress` after the scan pass. -/
def scanTotal (card : String → List String) (grabs : List GrabConfig) : Nat :=
  (grabs.map (grabWeight card)).sum

/-- Mutable state threaded through the copy and organize passes:
the local `progress` counter, the last value stored into
`app_state.progress`, the pushed snapshots, and the performed
copies/deletions/organize invocations.  `divZero` records whether an
evaluated `int(progress*100/total_progress)` divided by zero. -/
structure PipeSt where
  progress : Nat
  stateProgress : Nat
  pushes : List AppState
  copies : List (Nat × SrcFile)
  deletes : List String
  organizeCalls : List (Nat × RenameMethod)
  divZero : Bool
deriving Repr

/-- `if progress % 10 == 0: app_state.progress = progress; emit`. -/
def pushIfDiv10 (mc : Nat) (cid : String) (st : PipeSt) : PipeSt :=
  if st.progress % 10 = 0 then
    { st with stateProgress := st.progress,
              pushes := st.pushes ++ [⟨AppStatus.BUSY, mc, st.progress, cid⟩] }
  else st

/-- `progress += 1` followed by the debug-log division (which evaluates
`progress*100/total_progress` eagerly) and the conditional push. -/
def bumpProgress (total mc : Nat) (cid : String) (st : PipeSt) : PipeSt :=
  pushIfDiv10 mc cid
    { st with progress := st.progress + 1,
              divZero := st.divZero || decide (total = 0) }

/-- Copying one file of `src_file_list` into the target folder of the grab
at index `i` of the copy loop. -/
def copyFileStep (total mc : Nat) (cid : String) (i : Nat) (f : SrcFile)
    (st : PipeSt) : PipeSt :=
  bumpProgress total mc cid { st with copies := st.copies ++ [(i, f)] }

/-- The copy-loop body for one grab (source lines 189-221): the source
iterates the global `src_file_list`, not the grab's own matched files, then
decides deletion and adds the grab-overhead progress unit. -/
def copyGrabStep (cfg : AppConfig) (total mc : Nat) (cid : String)
    (files : List SrcFile) (st : PipeSt) (ig : Nat × GrabConfig) : PipeSt :=
  let st := files.foldl (fun s f => copyFileStep total mc cid ig.1 f s) st
  let st :=
    if cfg.delete_after_copy && !ig.2.never_delete then
      { st with deletes := st.deletes ++ [ig.2.path] }
    else st
  bumpProgress total mc cid st

/-- The full copy pass over all grabs. -/
def copyPass (cfg : AppConfig) (total mc : Nat) (cid : String)
    (files : List SrcFile) (st : PipeSt) : PipeSt :=
  cfg.grabs.enum.foldl (copyGrabStep cfg total mc cid files) st

/-- The organize loop (source lines 224-232): every grab is passed to the
Organizer with its own rename method — there is no `renameMethod != NONE`
filter.  With `rename_method == NONE` and a non-empty target folder the
Organizer raises `ValueError` at its first file, which aborts the loop
(`true` in the result means an exception escaped). -/
def organizePass (total mc : Nat) (cid : String) (hasFiles : Bool) :
    List (Nat × GrabConfig) → PipeSt → PipeSt × Bool
  | [], st => (st, false)
  | ig :: rest, st =>
    let st := { st with organizeCalls := st.organizeCalls ++ [(ig.1, ig.2.rename_method)] }
    if ig.2.rename_method = RenameMethod.NONE ∧ hasFiles = true then (st, true)
    else organizePass total mc cid hasFiles rest (bumpProgress total mc cid st)

/-- The observable outcome of one `handle_card_insert` run. -/
structure RunResult where
  finalState : AppState
  pushes : List AppState
  copies : List (Nat × SrcFile)
  deletes : List String
  organizeCalls : List (Nat × RenameMethod)
  destCreated : Bool
  processedAfter : List String
  lockHeldAfter : Bool
  unmountAttempted : Bool
  divZero : Bool
deriving Repr

/-- `grabby.handle_card_insert`.  `card` is the mounted card's filesystem
(entries of each grab's source subfolder), `mountOk` the outcome of
`mount_device`, `processed` the dedupe set.  The mount-failure handler
returns before the `try/finally` block is entered, so on that path the
config lock stays held and no unmount is attempted. -/
def handle_card_insert (cfg : AppConfig) (card : String → List String)
    (mountOk : Bool) (deviceNode cardId : String) (processed : List String) :
    RunResult :=
  let busy : AppState := ⟨AppStatus.BUSY, 0, 0, cardId⟩
  if mountOk = false then
    let errSt : AppState := ⟨AppStatus.ERROR, 0, 0, cardId⟩
    { finalState := errSt, pushes := [busy, errSt], copies := [], deletes := [],
      organizeCalls := [], destCreated := false,
      processedAfter := processed.erase deviceNode,
      lockHeldAfter := true, unmountAttempted := false, divZero := false }
  else
    let total := scanTotal card cfg.grabs
    let files := scanFiles card cfg.grabs
    let mc := files.length
    if mc = 0 then
      let fin : AppState := ⟨AppStatus.READY, 0, 100, cardId⟩
      { finalState := fin, pushes := [busy, fin], copies := [], deletes := [],
        organizeCalls := [], destCreated := false,
        processedAfter := processed.erase deviceNode,
        lockHeldAfter := false, unmountAttempted := true, divZero := false }
    else
      let st1 := copyPass cfg total mc cardId files ⟨0, 0, [], [], [], [], false⟩
      let res := organizePass total mc cardId (!files.isEmpty) cfg.grabs.enum st1
      let st2 := res.1
      if res.2 then
        let fin : AppState := ⟨AppStatus.ERROR, mc, st2.stateProgress, cardId⟩
        { finalState := fin, pushes := busy :: st2.pushes ++ [fin],
          copies := st2.copies, deletes := st2.deletes,
          organizeCalls := st2.organizeCalls, destCreated := true,
          processedAfter := processed.erase deviceNode,
          lockHeldAfter := false, unmountAttempted := true, divZero := st2.divZero }
      else
        let fin : AppState := ⟨AppStatus.READY, mc, 100, cardId⟩
        { finalState := fin, pushes := busy :: st2.pushes ++ [fin],
          copies := st2.copies, deletes := st2.deletes,
          organizeCalls := st2.organizeCalls, destCreated := true,
          processedAfter := processed.erase deviceNode,
          lockHeldAfter := false, unmountAttempted := true, divZero := st2.divZero }

/-! ## Device-event router (`grabby.card_event`) -/

/-- The fields of a `pyudev.Device` the router reads. -/
structure UdevDevice where
  sys_name : String
  device_node : String
  properties : List (String × String)
deriving DecidableEq, Repr

/-- `device.properties.get(k)`. -/
def lookupProp (props : List (String × String)) (k : String) : Option String :=
  (props.find? (fun kv => kv.1 == k)).map (fun kv => kv.2)

/-- The display-name derivation (source lines 275-284). -/
def deriveDeviceName (props : List (String × String)) : String :=
  let label := (lookupProp props "ID_FS_LABEL").getD ""
  if label = "" then
    let base :=
      match lookupProp props "ID_NAME" with
      | some v => v
      | none =>
        match lookupProp props "ID_MODEL" with
        | some v => v
        | none => ""
    match lookupProp props "ID_SERIAL_SHORT" with
    | some serial => if base = "" then base else base ++ "_" ++ serial
    | none => base
  else label

/-- ASCII decimal digit test (`\d` on the ASCII sys-names udev produces). -/
def isDigitCh (c : Char) : Bool := decide ('0' ≤ c) && decide (c ≤ '9')

/-- Does `[hs]d[a-z]\d+` match at the head of the list (one digit suffices
for existence of a match)? -/
def drvAt : List Char → Bool
  | c0 :: c1 :: c2 :: c3 :: _ =>
    (c0 == 'h' || c0 == 's') && (c1 == 'd') &&
    (decide ('a' ≤ c2) && decide (c2 ≤ 'z')) && isDigitCh c3
  | _ => false

/-- Head of the list is `p` followed by a digit. -/
def pThenDigit : List Char → Bool
  | c :: d :: _ => (c == 'p') && isDigitCh d
  | _ => false

/-- Does `\d+p\d+` match at the head of the list? -/
def mmcDigitsP : List Char → Bool
  | [] => false
  | c :: rest => isDigitCh c && (pThenDigit rest || mmcDigitsP rest)

/-- Does `mmcblk\d+p\d+` match at the head of the list? -/
def mmcAt : List Char → Bool
  | c1 :: c2 :: c3 :: c4 :: c5 :: c6 :: rest =>
    (c1 == 'm') && (c2 == 'm') && (c3 == 'c') && (c4 == 'b') &&
    (c5 == 'l') && (c6 == 'k') && mmcDigitsP rest
  | _ => false

/-- `re.search` over all start positions. -/
def searchAny (p : List Char → Bool) : List Char → Bool
  | [] => p []
  | c :: rest => p (c :: rest) || searchAny p rest

/-- The router's accept test (source lines 266-268): `re.search` of the two
patterns over the event's `sys_name`. -/
def acceptSysName (s : String) : Bool :=
  searchAny drvAt s.data || searchAny mmcAt s.data

/-- Spec-side regex language: a word of `[hs]d[a-z]\d+`. -/
def drvWord (w : List Char) : Prop :=
  ∃ c0 c2 ds, w = c0 :: 'd' :: c2 :: ds ∧ (c0 = 'h' ∨ c0 = 's') ∧
    'a' ≤ c2 ∧ c2 ≤ 'z' ∧ ds ≠ [] ∧ ∀ c ∈ ds, isDigitCh c = true

/-- Spec-side regex language: a word of `mmcblk\d+p\d+`. -/
def mmcWord (w : List Char) : Prop :=
  ∃ ds1 ds2, w = 'm' :: 'm' :: 'c' :: 'b' :: 'l' :: 'k' :: (ds1 ++ 'p' :: ds2) ∧
    ds1 ≠ [] ∧ ds2 ≠ [] ∧ (∀ c ∈ ds1, isDigitCh c = true) ∧ ∀ c ∈ ds2, isDigitCh c = true

/-- Spec-side notion of a sys-name matching one of the accepted device
patterns: some substring lies in one of the two regex languages (this is
`re.search` semantics, as the spec's "matching" refers to). -/
def sysNameMatchesSpec (s : String) : Prop :=
  ∃ l w r, s.data = l ++ w ++ r ∧ (drvWord w ∨ mmcWord w)

/-- `grabby.card_event`: returns the pipeline invocation performed, if any
(device node and derived display name), together with the updated dedupe
set. -/
def card_event (action : String) (dev : UdevDevice) (processed : List String) :
    Option (String × String) × List String :=
  if acceptSysName dev.sys_name then
    let name := deriveDeviceName dev.properties
    if action = "add" then
      if dev.device_node ∈ processed then (none, processed)
      else (some (dev.device_node, name), processed ++ [dev.device_node])
    else
      if action = "remove" then
        if dev.device_node ∈ processed then (none, processed.erase dev.device_node)
        else (none, processed)
      else (none, processed)
  else (none, processed)

/-! ## Invariant used to reason about the progress pushes -/

/-- Invariant of the copy/organize state: the pushed progress values are
non-decreasing, each is a multiple of ten bounded by the current counter, and
the last stored `app_state.progress` is a bounded multiple of ten. -/
def PipeInv (st : PipeSt) : Prop :=
  List.Chain' (fun a b => a ≤ b) (st.pushes.map AppState.progress) ∧
  (∀ a ∈ st.pushes, a.progress % 10 = 0 ∧ a.progress ≤ st.progress) ∧
  st.stateProgress % 10 = 0 ∧ st.stateProgress ≤ st.progress

/-! ## Concrete instances used in the claim checks -/

/-- A grab collecting jpg files from `DCIM` (the spec's scenario grab). -/
def grabDCIM : GrabConfig := ⟨"DCIM", false, ["jpg"], .TREE, true, true, none⟩

/-- A second grab collecting mp4 files from `CLIP`. -/
def grabCLIP : GrabConfig := ⟨"CLIP", false, ["mp4"], .TREE, true, true, none⟩

/-- Two-grab config exercising the copy pass. -/
def cfgC1 : AppConfig := ⟨false, "/dest", "/mnt", [grabDCIM, grabCLIP], 20, none⟩

/-- Card with one jpg under `DCIM` and one mp4 under `CLIP`. -/
def cardC1 : String → List String :=
  fun p => if p = "DCIM" then ["a.jpg"] else if p = "CLIP" then ["b.mp4"] else []

/-- Minimal config for the mount-failure scenario. -/
def cfgC2 : AppConfig := ⟨true, "/dest", "/mnt", [], 20, none⟩

/-- Empty card for the mount-failure scenario. -/
def cardC2 : String → List String := fun _ => []

/-- A previously loaded, valid in-memory config. -/
def oldCfgC3 : AppConfig := ⟨true, "/dest", "/mnt", [grabDCIM], 20, none⟩

/-- A parsed snapshot that changes `delete_after_copy` and
`destination_base` but lacks the `grabs` key. -/
def badRawC3 : RawConfig := ⟨some false, some "/newdest", none, none, none, none⟩

/-- A grab whose rename method is `NONE`. -/
def grabNONE : GrabConfig := ⟨"X", false, ["jpg"], .NONE, true, false, none⟩

/-- Config with a single `NONE` grab. -/
def cfgC5 : AppConfig := ⟨false, "/d", "/m", [grabNONE], 20, none⟩

/-- Card with one matching file for the `NONE` grab. -/
def cardC5 : String → List String := fun p => if p = "X" then ["a.jpg"] else []

/-- 108 jpg files, enough to drive the progress counter past 100. -/
def filesC6 : List String := (List.range 108).map (fun i => "f" ++ toString i ++ ".jpg")

/-- One-grab config used for the progress trace. -/
def cfgC6 : AppConfig := ⟨false, "/d", "/m", [grabDCIM], 20, none⟩

/-- Card holding the 108 jpg files. -/
def cardC6 : String → List String := fun p => if p = "DCIM" then filesC6 else []

/-- Small card for the progress witness (one matching file). -/
def cardC6w : String → List String := fun p => if p = "DCIM" then ["a.jpg"] else []

/-- The default Sony-style media tag of the source examples. -/
def tagC7 : MediaInfoTag := ⟨"General", "Encoded date", "UTC", none⟩

/-- Media environment resolving every file's tag date to 2021-03-04. -/
def envC7 : MediaEnv :=
  ⟨true, fun _ => some [⟨"General", [("encoded_date", "2021-03-04 05:06:07 UTC")]⟩],
   fun _ => .ok 2021 3 4⟩

/-- A file whose mtime date 2020-01-02 differs from its media-tag date. -/
def fileC7 : FsEntry := ⟨"x.jpg", true, (2020, 1, 2)⟩

/-- The move produced for `fileC7` when organizing with mtime naming only. -/
def mvC7w : OrgMove := ⟨"x.jpg", ["2020", "01", "02"], "20200102_x.jpg"⟩

/-- Media environment whose time-zone setup fails (`gettz`/`tzlocal` raise). -/
def envC8 : MediaEnv := ⟨false, fun _ => some [], fun _ => .valueError⟩

/-- A regular media file. -/
def fileC8 : FsEntry := ⟨"y.mp4", true, (2020, 1, 2)⟩

/-- A benign media environment (tz ok, containers readable, parses succeed). -/
def envC8w : MediaEnv := ⟨true, fun _ => some [], fun _ => .ok 2021 3 4⟩

/-- One-grab config for the zero-match run. -/
def cfgC9w : AppConfig := ⟨true, "/d", "/m", [grabDCIM], 20, none⟩

/-- Card whose only file does not match any grab's types. -/
def cardC9w : String → List String := fun p => if p = "DCIM" then ["n.txt"] else []

/-- A media environment for runs that never consult media tags. -/
def envBenign : MediaEnv := ⟨true, fun _ => some [], fun _ => .valueError⟩

/-- A regular file whose name has no dot, hence an empty suffix list. -/
def entryC10 : FsEntry := ⟨"README", true, (2020, 1, 1)⟩

/-- A device whose sys name matches neither accepted pattern. -/
def devC4 : UdevDevice := ⟨"loop0", "/dev/loop0", []⟩

/-! ## Claim C1 -/

/-- C1: the claim states that the copy pass copies exactly each grab's own
matched files into that grab's target subfolder.  The code instead iterates
the global `src_file_list` for every grab (the per-grab filter at source
lines 196-197 is commented out), so the CLIP grab's target folder (copy-loop
index 1) also receives the file matched by the DCIM grab, and vice versa. -/
theorem C1_cross_grab_copies :
    (handle_card_insert cfgC1 cardC1 true "/dev/sda1" "card" ["/dev/sda1"]).copies =
      [(0, ⟨"DCIM", "a.jpg"⟩), (0, ⟨"CLIP", "b.mp4"⟩),
       (1, ⟨"DCIM", "a.jpg"⟩), (1, ⟨"CLIP", "b.mp4"⟩)] ∧
    (1, (⟨"DCIM", "a.jpg"⟩ : SrcFile)) ∈
      (handle_card_insert cfgC1 cardC1 true "/dev/sda1" "card" ["/dev/sda1"]).copies := by
  decide

/-! ## Claim C2 -/

/-- C2 counterexample: when mount fails the claim asserts the ConfigStore
lock is released and unmount is still attempted; on the code's mount-failure
path the handler returns before the `try/finally`, so the lock stays held
and no unmount happens. -/
theorem C2_mount_failure_cx :
    (handle_card_insert cfgC2 cardC2 false "/dev/sda1" "c" ["/dev/sda1"]).lockHeldAfter = true ∧
    (handle_card_insert cfgC2 cardC2 false "/dev/sda1" "c" ["/dev/sda1"]).unmountAttempted = false := by
  decide

/-- C2 amended: every mount-failure run ends with status ERROR, clears the
dedupe mark and pushes the error state, creating no destination folder; but
cleanup does not run — the ConfigStore lock remains held and unmount is not
attempted. -/
theorem C2_mount_failure_amended (cfg : AppConfig) (card : String → List String)
    (node cid : String) (processed : List String) :
    handle_card_insert cfg card false node cid processed =
      { finalState := ⟨AppStatus.ERROR, 0, 0, cid⟩,
        pushes := [⟨AppStatus.BUSY, 0, 0, cid⟩, ⟨AppStatus.ERROR, 0, 0, cid⟩],
        copies := [], deletes := [], organizeCalls := [], destCreated := false,
        processedAfter := processed.erase node,
        lockHeldAfter := true, unmountAttempted := false, divZero := false } := by
  simp [handle_card_insert]

/-! ## Claim C3 -/

/-- C3 counterexample: reloading a snapshot that lacks the `grabs` key fails
with `KeyError`, yet the in-memory config has already been mutated:
`delete_after_copy` flipped to the new value and the grab list was reset,
so the AppConfig after the failed reload differs from the one before. -/
theorem C3_mutated_config_cx :
    (loadConfig oldCfgC3 badRawC3).2 = some PyErr.keyError ∧
    (loadConfig oldCfgC3 badRawC3).1 ≠ oldCfgC3 ∧
    (loadConfig oldCfgC3 badRawC3).1.delete_after_copy = false ∧
    oldCfgC3.delete_after_copy = true ∧
    (loadConfig oldCfgC3 badRawC3).1.grabs = [] ∧
    oldCfgC3.grabs = [grabDCIM] := by
  decide

/-- C3 amended: a reload whose snapshot parses but lacks the `grabs` key
raises `KeyError` uncaught and leaves the in-memory AppConfig partially
updated in place: the scalar fields already carry the new snapshot's values
and the grab list is reset to empty. -/
theorem C3_mutated_config_amended (old : AppConfig) (raw : RawConfig)
    (h : raw.grabs = none) :
    (loadConfig old raw).2 = some PyErr.keyError ∧
    (loadConfig old raw).1.grabs = [] ∧
    (loadConfig old raw).1.delete_after_copy = raw.delete_after_copy.getD true ∧
    (loadConfig old raw).1.destination_base = pickPath raw.destination_base defaultDestinationBase ∧
    (loadConfig old raw).1.log_level = nameToLevel raw.log_level := by
  simp [loadConfig, h]

/-- C3 amended witness at the concrete failing reload. -/
theorem C3_mutated_config_witness :
    (loadConfig oldCfgC3 badRawC3).2 = some PyErr.keyError ∧
    (loadConfig oldCfgC3 badRawC3).1.grabs = [] ∧
    (loadConfig oldCfgC3 badRawC3).1.delete_after_copy = badRawC3.delete_after_copy.getD true ∧
    (loadConfig oldCfgC3 badRawC3).1.destination_base =
      pickPath badRawC3.destination_base defaultDestinationBase ∧
    (loadConfig oldCfgC3 badRawC3).1.log_level = nameToLevel badRawC3.log_level :=
  C3_mutated_config_amended oldCfgC3 badRawC3 rfl

/-! ## Claim C5 -/

/-- C5: the claim states the Organizer is invoked only for grabs with an
active rename method, so a `NONE` grab cannot trigger the Organizer's
invalid-argument error.  The code's organize loop has no such filter: the
`NONE` grab is passed to the Organizer (call recorded with its method) and
the resulting `ValueError` ends the run in ERROR. -/
theorem C5_none_grab_organize_call :
    (handle_card_insert cfgC5 cardC5 true "/dev/sda1" "c" ["/dev/sda1"]).organizeCalls =
      [(0, RenameMethod.NONE)] ∧
    (handle_card_insert cfgC5 cardC5 true "/dev/sda1" "c" ["/dev/sda1"]).finalState.status =
      AppStatus.ERROR := by
  decide

/-! ## Claim C9 -/

/-- If no entry of any grab's folder matches that grab's types, the scan
produces an empty `src_file_list`. -/
theorem scanFiles_eq_nil (card : String → List String) (grabs : List GrabConfig)
    (h : ∀ g ∈ grabs, ∀ n ∈ card g.path, matchesTypes n g.types = false) :
    scanFiles card grabs = [] := by
  unfold scanFiles
  rw [List.flatten_eq_nil_iff]
  intro l hl
  obtain ⟨g, hg, rfl⟩ := List.mem_map.mp hl
  unfold grabMatched
  rw [List.map_eq_nil_iff, List.filter_eq_nil_iff]
  intro n hn
  simp [h g hg n hn]

/-- C9: a run in which no file matches any grab (including a config with no
grabs at all, where the total weight is zero) completes with status READY
and progress 100, pushes exactly the start and end snapshots, creates no
destination folder, performs no copy, and never evaluates a division with a
zero total weight. -/
theorem C9_zero_matches (cfg : AppConfig) (card : String → List String)
    (node cid : String) (processed : List String)
    (h : ∀ g ∈ cfg.grabs, ∀ n ∈ card g.path, matchesTypes n g.types = false) :
    handle_card_insert cfg card true node cid processed =
      { finalState := ⟨AppStatus.READY, 0, 100, cid⟩,
        pushes := [⟨AppStatus.BUSY, 0, 0, cid⟩, ⟨AppStatus.READY, 0, 100, cid⟩],
        copies := [], deletes := [], organizeCalls := [], destCreated := false,
        processedAfter := processed.erase node,
        lockHeldAfter := false, unmountAttempted := true, divZero := false } := by
  have hf : scanFiles card cfg.grabs = [] := scanFiles_eq_nil card cfg.grabs h
  simp [handle_card_insert, hf]

/-- C9 witness: the zero-match run on a concrete card with one non-matching
file. -/
theorem C9_zero_matches_witness :
    handle_card_insert cfgC9w cardC9w true "/dev/sda1" "c" ["/dev/sda1"] =
      { finalState := ⟨AppStatus.READY, 0, 100, "c"⟩,
        pushes := [⟨AppStatus.BUSY, 0, 0, "c"⟩, ⟨AppStatus.READY, 0, 100, "c"⟩],
        copies := [], deletes := [], organizeCalls := [], destCreated := false,
        processedAfter := [],
        lockHeldAfter := false, unmountAttempted := true, divZero := false } :=
  C9_zero_matches cfgC9w cardC9w "/dev/sda1" "c" ["/dev/sda1"] (by decide)

/-! ## Claim C10 -/

/-- `split('.')` of a dot-free character list is the single whole part. -/
theorem splitOnDot_no_dot (l : List Char) (h : ∀ c ∈ l, c ≠ '.') :
    splitOnDot l = [l] := by
  induction l with
  | nil => rfl
  | cons c rest ih =>
    have hr : splitOnDot rest = [rest] := ih (fun c hc => h c (List.mem_cons_of_mem _ hc))
    have hc : c ≠ '.' := h c (List.mem_cons_self _ _)
    simp [splitOnDot, hr, hc]

/-- A file name containing no dot has an empty suffix list. -/
theorem suffixesOf_no_dot (name : String) (h : ∀ c ∈ name.data, c ≠ '.') :
    suffixesOf name = [] := by
  unfold suffixesOf
  have hd : name.data.dropWhile (fun c => decide (c = '.')) = name.data := by
    cases hn : name.data with
    | nil => rfl
    | cons c rest =>
      have : c ≠ '.' := by
        apply h; rw [hn]; exact List.mem_cons_self _ _
      simp [List.dropWhile, this]
  rw [hd, splitOnDot_no_dot name.data h]
  rfl

/-- With no media tag and an active rename method, processing a file whose
suffix list is empty raises `IndexError` (the `suffixes[-1]` access). -/
theorem processFile_no_suffix (env : MediaEnv) (method : RenameMethod)
    (pm mt : Bool) (idx : Nat) (e : FsEntry)
    (hm : method ≠ RenameMethod.NONE) (hs : suffixesOf e.name = []) :
    processFile env method pm mt none idx e = .error PyErr.indexError := by
  cases method with
  | NONE => exact absurd rfl hm
  | TREE => simp [processFile, destComponents, hs]
  | OVERWRITE => simp [processFile, destComponents, hs]

/-- With no media tag and an active rename method, processing a file whose
suffix list is non-empty succeeds. -/
theorem processFile_with_suffix (env : MediaEnv) (method : RenameMethod)
    (pm mt : Bool) (idx : Nat) (e : FsEntry)
    (hm : method ≠ RenameMethod.NONE) (suf : String) (sufs : List String)
    (hs : suffixesOf e.name = suf :: sufs) :
    ∃ mv, processFile env method pm mt none idx e = .ok mv := by
  cases hgl : (suffixesOf e.name).getLast? with
  | none => rw [hs] at hgl; simp at hgl
  | some lastSuf =>
    cases method with
    | NONE => exact absurd rfl hm
    | TREE =>
      simp only [processFile, destComponents, mediaNewName, hgl]
      exact ⟨_, rfl⟩
    | OVERWRITE =>
      simp only [processFile, destComponents, mediaNewName, hgl]
      exact ⟨_, rfl⟩

/-- The organize loop aborts with `IndexError` whenever some regular entry
has no dot in its name (no media tag configured, active rename method). -/
theorem organizeGo_no_extension (env : MediaEnv) (method : RenameMethod)
    (pm mt : Bool) (hm : method ≠ RenameMethod.NONE) :
    ∀ (entries : List FsEntry) (idx : Nat) (acc : List OrgMove),
      (∃ e ∈ entries, e.isFile = true ∧ ∀ c ∈ e.name.data, c ≠ '.') →
      organizeGo env method pm mt none entries idx acc = .error PyErr.indexError := by
  intro entries
  induction entries with
  | nil =>
    intro idx acc h
    obtain ⟨e, he, _⟩ := h
    exact absurd he (List.not_mem_nil e)
  | cons e0 rest ih =>
    intro idx acc h
    unfold organizeGo
    by_cases hf : e0.isFile = true
    · rw [if_pos hf]
      cases hsufs : suffixesOf e0.name with
      | nil =>
        rw [processFile_no_suffix env method pm mt (idx + 1) e0 hm hsufs]
      | cons suf sufs =>
        obtain ⟨mv, hmv⟩ :=
          processFile_with_suffix env method pm mt (idx + 1) e0 hm suf sufs hsufs
        rw [hmv]
        apply ih
        obtain ⟨e, he, hef, hnd⟩ := h
        rcases List.mem_cons.mp he with rfl | hrest
        · exact absurd hsufs (by rw [suffixesOf_no_dot e.name hnd]; simp)
        · exact ⟨e, hrest, hef, hnd⟩
    · rw [if_neg hf]
      apply ih
      obtain ⟨e, he, hef, hnd⟩ := h
      rcases List.mem_cons.mp he with rfl | hrest
      · exact absurd hef hf
      · exact ⟨e, hrest, hef, hnd⟩

/-- C10: organizing a directory that contains a regular file whose name has
no dot (empty suffix list) raises an uncaught `IndexError` from the
`suffixes[-1]` access, aborting the organize step for that directory (stated
for an active rename method and no media tag; with `renameMethod == NONE`
the loop aborts even earlier with `ValueError`). -/
theorem C10_no_extension_aborts (env : MediaEnv) (method : RenameMethod)
    (pm mt : Bool) (entries : List FsEntry)
    (hm : method ≠ RenameMethod.NONE)
    (h : ∃ e ∈ entries, e.isFile = true ∧ ∀ c ∈ e.name.data, c ≠ '.') :
    organize_files_in_place env entries method pm mt none = .error PyErr.indexError :=
  organizeGo_no_extension env method pm mt hm entries 0 [] h

/-- C10 witness: a directory holding `README` aborts with `IndexError`. -/
theorem C10_no_extension_witness :
    organize_files_in_place envBenign [entryC10] RenameMethod.TREE true true none =
      .error PyErr.indexError :=
  C10_no_extension_aborts envBenign RenameMethod.TREE true true [entryC10]
    (by decide) ⟨entryC10, by decide, by decide, by decide⟩

/-! ## Claim C7 -/

/-- C7 counterexample: the claim states the TREE directory components carry
the date used for the new file name (media-tag date when resolvable).  On a
file whose media-tag date is 2021-03-04 but whose mtime date is 2020-01-02,
the code produces the name `20210304_x.jpg` inside the directory
`2020/01/02`: the directory date does not match the filename date. -/
theorem C7_tree_dir_cx :
    organize_files_in_place envC7 [fileC7] RenameMethod.TREE true true (some tagC7) =
      .ok [⟨"x.jpg", ["2020", "01", "02"], "20210304_x.jpg"⟩] ∧
    treeDirOf (2021, 3, 4) = ["2021", "03", "04"] ∧
    (["2020", "01", "02"] : List String) ≠ ["2021", "03", "04"] :=
  ⟨rfl, rfl, by decide⟩

/-- A successful TREE `processFile` keeps the source name and always places
the file under the mtime date's tree, whatever named the file. -/
theorem processFile_tree_shape (env : MediaEnv) (pm mt : Bool)
    (tag : Option MediaInfoTag) (idx : Nat) (e : FsEntry) (mv : OrgMove)
    (h : processFile env RenameMethod.TREE pm mt tag idx e = .ok mv) :
    mv.src = e.name ∧ mv.destDir = treeDirOf e.mtime := by
  cases hgl : (suffixesOf e.name).getLast? with
  | none =>
    rw [processFile, destComponents] at h
    simp only [hgl] at h
    exact absurd h (by simp)
  | some lastSuf =>
    rw [processFile, destComponents] at h
    simp only [hgl] at h
    cases hmn : mediaNewName env pm tag idx e (collapsedStem e.name ++ lastSuf) lastSuf with
    | error er =>
      rw [hmn] at h
      exact absurd h (by simp)
    | ok nfm =>
      rw [hmn] at h
      simp only [Except.ok.injEq] at h
      rw [← h]
      exact ⟨rfl, rfl⟩

/-- Moves reported by a successful TREE organize loop come from regular
entries of the directory and sit under their entry's mtime-date tree. -/
theorem organizeGo_tree_moves (env : MediaEnv) (pm mt : Bool)
    (tag : Option MediaInfoTag) :
    ∀ (es : List FsEntry) (idx : Nat) (acc moves : List OrgMove),
      organizeGo env RenameMethod.TREE pm mt tag es idx acc = .ok moves →
      ∀ mv ∈ moves, mv ∈ acc ∨
        ∃ e ∈ es, e.isFile = true ∧ mv.src = e.name ∧ mv.destDir = treeDirOf e.mtime := by
  intro es
  induction es with
  | nil =>
    intro idx acc moves h mv hmv
    unfold organizeGo at h
    simp only [Except.ok.injEq] at h
    exact Or.inl (h ▸ hmv)
  | cons e0 rest ih =>
    intro idx acc moves h mv hmv
    unfold organizeGo at h
    by_cases hf : e0.isFile = true
    · rw [if_pos hf] at h
      cases hp : processFile env RenameMethod.TREE pm mt tag (idx + 1) e0 with
      | error er => rw [hp] at h; exact absurd h (by simp)
      | ok mv' =>
        rw [hp] at h
        rcases ih (idx + 1) (acc ++ [mv']) moves h mv hmv with hacc | ⟨e, he, hef, hsrc, hdir⟩
        · rcases List.mem_append.mp hacc with h1 | h1
          · exact Or.inl h1
          · have h1 : mv = mv' := by simpa using h1
            subst h1
            obtain ⟨hs, hd⟩ := processFile_tree_shape env pm mt tag (idx + 1) e0 mv hp
            exact Or.inr ⟨e0, List.mem_cons_self _ _, hf, hs, hd⟩
        · exact Or.inr ⟨e, List.mem_cons_of_mem _ he, hef, hsrc, hdir⟩
    · rw [if_neg hf] at h
      rcases ih idx acc moves h mv hmv with h1 | ⟨e, he, hef, hsrc, hdir⟩
      · exact Or.inl h1
      · exact Or.inr ⟨e, List.mem_cons_of_mem _ he, hef, hsrc, hdir⟩

/-- C7 amended: with `renameMethod == TREE` every moved file lands under
`directory/{year}/{month:02d}/{day:02d}` of its **mtime** date, regardless
of which date (media tag or mtime) was used for the new file name; the
directory date therefore matches the filename's YYYYMMDD only when the name
was derived from the mtime date. -/
theorem C7_tree_dir_amended (env : MediaEnv) (entries : List FsEntry)
    (pm mt : Bool) (tag : Option MediaInfoTag) (moves : List OrgMove)
    (h : organize_files_in_place env entries RenameMethod.TREE pm mt tag = .ok moves)
    (mv : OrgMove) (hmv : mv ∈ moves) :
    ∃ e ∈ entries, e.isFile = true ∧ mv.src = e.name ∧ mv.destDir = treeDirOf e.mtime := by
  rcases organizeGo_tree_moves env pm mt tag entries 0 [] moves h mv hmv with hacc | hfound
  · exact absurd hacc (List.not_mem_nil mv)
  · exact hfound

/-- C7 amended witness at a concrete mtime-named organize run. -/
theorem C7_tree_dir_amended_witness :
    ∃ e ∈ [fileC7], e.isFile = true ∧ OrgMove.src mvC7w = e.name ∧
      OrgMove.destDir mvC7w = treeDirOf e.mtime :=
  C7_tree_dir_amended envC7 [fileC7] true true none [mvC7w] rfl mvC7w (by decide)

/-! ## Claim C8 -/

/-- C8 counterexample: the claim states every failure of media-tag date
derivation (including an invalid time zone or unreadable container) is
recovered locally.  When the time-zone setup fails, the code raises
`ValueError` out of `get_local_date_from_media_info`, and no handler in
`organize_files_in_place` catches it: organizing the directory aborts. -/
theorem C8_tz_failure_cx :
    get_local_date_from_media_info envC8 "y.mp4" tagC7 = .error PyErr.valueError ∧
    organize_files_in_place envC8 [fileC8] RenameMethod.TREE true true (some tagC7) =
      .error PyErr.valueError :=
  ⟨rfl, rfl⟩

/-- The track loop never raises as long as date parsing only fails with
`ValueError` (which it catches). -/
theorem loopTracks_no_escape (env : MediaEnv) (tag : MediaInfoTag)
    (h3 : ∀ s, env.dtParse s ≠ DtResult.otherError) :
    ∀ tracks, ∃ r, loopTracks env tag tracks = .ok r := by
  intro tracks
  induction tracks with
  | nil => exact ⟨none, rfl⟩
  | cons t rest ih =>
    by_cases ht : t.track_type = tag.group
    · cases ha : lookupAttr t.attrs (normalizeTagName tag.name) with
      | none =>
        obtain ⟨r, hr⟩ := ih
        exact ⟨r, by simp [loopTracks, ht, ha, hr]⟩
      | some s =>
        by_cases hs : s = ""
        · obtain ⟨r, hr⟩ := ih
          exact ⟨r, by simp [loopTracks, ht, ha, hs, hr]⟩
        · cases hd : env.dtParse (sanitize_datetime_string s tag.substrs) with
          | ok y m d =>
            exact ⟨some (y, m, d), by simp [loopTracks, ht, ha, hs, hd]⟩
          | valueError =>
            exact ⟨none, by simp [loopTracks, ht, ha, hs, hd]⟩
          | otherError => exact absurd hd (h3 _)
    · obtain ⟨r, hr⟩ := ih
      exact ⟨r, by simp [loopTracks, ht, hr]⟩

/-- C8 amended: the recovered failures are a missing/other-typed track, a
missing or empty attribute, and a date string whose parse raises
`ValueError` — under those the derivation always returns without raising.
Not recovered (and escaping the per-file organize step) are: a time-zone
setup failure (raises `ValueError`), an unreadable container
(`MediaInfo.parse` exception), and a non-`ValueError` parse failure. -/
theorem C8_media_date_amended (env : MediaEnv) (fp : String) (tag : MediaInfoTag)
    (h1 : env.tzOk = true) (h2 : env.parse fp ≠ none)
    (h3 : ∀ s, env.dtParse s ≠ DtResult.otherError) :
    ∃ r, get_local_date_from_media_info env fp tag = .ok r := by
  cases hp : env.parse fp with
  | none => exact absurd hp h2
  | some tracks =>
    obtain ⟨r, hr⟩ := loopTracks_no_escape env tag h3 tracks
    exact ⟨r, by simp [get_local_date_from_media_info, h1, hp, hr]⟩

/-- C8 amended witness in a benign media environment. -/
theorem C8_media_date_amended_witness :
    ∃ r, get_local_date_from_media_info envC8w "y.mp4" tagC7 = .ok r :=
  C8_media_date_amended envC8w "y.mp4" tagC7 rfl (by simp [envC8w])
    (fun s => by simp [envC8w])

/-! ## Claim C4 -/

/-- `re.search` succeeds exactly when the predicate holds at some suffix. -/
theorem searchAny_iff (p : List Char → Bool) (l : List Char) :
    searchAny p l = true ↔ ∃ l1 l2, l = l1 ++ l2 ∧ p l2 = true := by
  induction l with
  | nil =>
    simp only [searchAny]
    constructor
    · intro h; exact ⟨[], [], rfl, h⟩
    · rintro ⟨l1, l2, he, hp⟩
      obtain ⟨-, h2⟩ := List.append_eq_nil.mp he.symm
      exact h2 ▸ hp
  | cons c rest ih =>
    simp only [searchAny, Bool.or_eq_true, ih]
    constructor
    · rintro (h | ⟨l1, l2, he, hp⟩)
      · exact ⟨[], c :: rest, rfl, h⟩
      · exact ⟨c :: l1, l2, by simp [he], hp⟩
    · rintro ⟨l1, l2, he, hp⟩
      cases l1 with
      | nil =>
        simp only [List.nil_append] at he
        exact Or.inl (he ▸ hp)
      | cons a l1t =>
        rw [List.cons_append] at he
        injection he with h1 h2
        exact Or.inr ⟨l1t, l2, h2, hp⟩

/-- Characterization of a `[hs]d[a-z]\d` hit at the head of a list. -/
theorem drvAt_iff (t : List Char) :
    drvAt t = true ↔ ∃ c0 c2 c3 r, t = c0 :: 'd' :: c2 :: c3 :: r ∧
      (c0 = 'h' ∨ c0 = 's') ∧ 'a' ≤ c2 ∧ c2 ≤ 'z' ∧ isDigitCh c3 = true := by
  match t with
  | [] =>
    simp only [drvAt]
    constructor
    · intro h; cases h
    · rintro ⟨c0, c2, c3, r, he, -⟩; cases he
  | [c0] =>
    simp only [drvAt]
    constructor
    · intro h; cases h
    · rintro ⟨c0', c2', c3', r', he, -⟩; cases he
  | [c0, c1] =>
    simp only [drvAt]
    constructor
    · intro h; cases h
    · rintro ⟨c0', c2', c3', r', he, -⟩; cases he
  | [c0, c1, c2] =>
    simp only [drvAt]
    constructor
    · intro h; cases h
    · rintro ⟨c0', c2', c3', r', he, -⟩; cases he
  | c0 :: c1 :: c2 :: c3 :: r =>
    simp only [drvAt, Bool.and_eq_true, Bool.or_eq_true, beq_iff_eq, decide_eq_true_eq]
    constructor
    · rintro ⟨⟨⟨h0, h1⟩, h2a, h2b⟩, h3⟩
      exact ⟨c0, c2, c3, r, by rw [h1], h0, h2a, h2b, h3⟩
    · rintro ⟨c0', c2', c3', r', he, h0, h2a, h2b, h3⟩
      injection he with e0 he
      injection he with e1 he
      injection he with e2 he
      injection he with e3 he
      subst e0; subst e1; subst e2; subst e3
      exact ⟨⟨⟨h0, rfl⟩, h2a, h2b⟩, h3⟩

/-- The search for `[hs]d[a-z]\d+` is equivalent to containing a word of
that regex language. -/
theorem drv_search_iff (l : List Char) :
    searchAny drvAt l = true ↔ ∃ l1 w l2, l = l1 ++ w ++ l2 ∧ drvWord w := by
  rw [searchAny_iff]
  constructor
  · rintro ⟨l1, t, he, hp⟩
    obtain ⟨c0, c2, c3, r, ht, h0, h2a, h2b, h3⟩ := (drvAt_iff t).mp hp
    refine ⟨l1, [c0, 'd', c2, c3], r, ?_, ?_⟩
    · rw [he, ht]; simp
    · exact ⟨c0, c2, [c3], rfl, h0, h2a, h2b, by simp, by simpa using h3⟩
  · rintro ⟨l1, w, l2, he, hw⟩
    unfold drvWord at hw
    obtain ⟨c0, c2, ds, hw, h0, h2a, h2b, hne, hds⟩ := hw
    cases ds with
    | nil => exact absurd rfl hne
    | cons d dst =>
      refine ⟨l1, w ++ l2, by rw [he, List.append_assoc], ?_⟩
      apply (drvAt_iff _).mpr
      exact ⟨c0, c2, d, dst ++ l2, by rw [hw]; simp, h0, h2a, h2b,
             hds d (by simp)⟩

/-- Characterization of a `p\d` head. -/
theorem pThenDigit_iff (t : List Char) :
    pThenDigit t = true ↔ ∃ d r, t = 'p' :: d :: r ∧ isDigitCh d = true := by
  match t with
  | [] =>
    simp only [pThenDigit]
    constructor
    · intro h; cases h
    · rintro ⟨d, r, he, -⟩; cases he
  | [c] =>
    simp only [pThenDigit]
    constructor
    · intro h; cases h
    · rintro ⟨d, r, he, -⟩; cases he
  | c :: d :: r =>
    simp only [pThenDigit, Bool.and_eq_true, beq_iff_eq]
    constructor
    · rintro ⟨h1, h2⟩
      exact ⟨d, r, by rw [h1], h2⟩
    · rintro ⟨d', r', he, hd⟩
      injection he with e1 he
      injection he with e2 he
      subst e1; subst e2
      exact ⟨rfl, hd⟩

/-- Characterization of a `\d+p\d` hit at the head of a list. -/
theorem mmcDigitsP_iff (l : List Char) :
    mmcDigitsP l = true ↔ ∃ ds d r, l = ds ++ 'p' :: d :: r ∧ ds ≠ [] ∧
      (∀ c ∈ ds, isDigitCh c = true) ∧ isDigitCh d = true := by
  induction l with
  | nil =>
    simp only [mmcDigitsP]
    constructor
    · intro h; cases h
    · rintro ⟨ds, d, r, he, hne, -⟩
      cases ds with
      | nil => exact absurd rfl hne
      | cons a dst => cases he
  | cons c rest ih =>
    simp only [mmcDigitsP, Bool.and_eq_true, Bool.or_eq_true]
    constructor
    · rintro ⟨hc, hp | hm⟩
      · obtain ⟨d, r, hr, hd⟩ := (pThenDigit_iff rest).mp hp
        exact ⟨[c], d, r, by rw [hr]; rfl, by simp, by simpa using hc, hd⟩
      · obtain ⟨ds, d, r, hr, hne, hds, hd⟩ := ih.mp hm
        refine ⟨c :: ds, d, r, by rw [hr]; rfl, by simp, ?_, hd⟩
        intro x hx
        rcases List.mem_cons.mp hx with rfl | hx
        · exact hc
        · exact hds x hx
    · rintro ⟨ds, d, r, he, hne, hds, hd⟩
      cases ds with
      | nil => exact absurd rfl hne
      | cons a dst =>
        rw [List.cons_append] at he
        injection he with h1 h2
        subst h1
        refine ⟨hds c (by simp), ?_⟩
        cases dst with
        | nil =>
          rw [List.nil_append] at h2
          exact Or.inl ((pThenDigit_iff rest).mpr ⟨d, r, h2, hd⟩)
        | cons b dst' =>
          refine Or.inr (ih.mpr ⟨b :: dst', d, r, h2, by simp, ?_, hd⟩)
          intro x hx
          exact hds x (List.mem_cons_of_mem _ hx)

/-- Characterization of an `mmcblk\d+p\d` hit at the head of a list. -/
theorem mmcAt_iff (t : List Char) :
    mmcAt t = true ↔ ∃ rest, t = 'm' :: 'm' :: 'c' :: 'b' :: 'l' :: 'k' :: rest ∧
      mmcDigitsP rest = true := by
  match t with
  | [] => simp only [mmcAt]; constructor
          · intro h; cases h
          · rintro ⟨rest, he, -⟩; cases he
  | [a] => simp only [mmcAt]; constructor
           · intro h; cases h
           · rintro ⟨rest, he, -⟩; cases he
  | [a, b] => simp only [mmcAt]; constructor
              · intro h; cases h
              · rintro ⟨rest, he, -⟩; cases he
  | [a, b, c] => simp only [mmcAt]; constructor
                 · intro h; cases h
                 · rintro ⟨rest, he, -⟩; cases he
  | [a, b, c, d] => simp only [mmcAt]; constructor
                    · intro h; cases h
                    · rintro ⟨rest, he, -⟩; cases he
  | [a, b, c, d, e] => simp only [mmcAt]; constructor
                       · intro h; cases h
                       · rintro ⟨rest, he, -⟩; cases he
  | a :: b :: c :: d :: e :: f :: rest =>
    simp only [mmcAt, Bool.and_eq_true, beq_iff_eq]
    constructor
    · rintro ⟨⟨⟨⟨⟨⟨h1, h2⟩, h3⟩, h4⟩, h5⟩, h6⟩, hm⟩
      exact ⟨rest, by rw [h1, h2, h3, h4, h5, h6], hm⟩
    · rintro ⟨rest', he, hm⟩
      injection he with e1 he
      injection he with e2 he
      injection he with e3 he
      injection he with e4 he
      injection he with e5 he
      injection he with e6 he
      subst e1; subst e2; subst e3; subst e4; subst e5; subst e6; subst he
      exact ⟨⟨⟨⟨⟨⟨rfl, rfl⟩, rfl⟩, rfl⟩, rfl⟩, rfl⟩, hm⟩

/-- The search for `mmcblk\d+p\d+` is equivalent to containing a word of
that regex language. -/
theorem mmc_search_iff (l : List Char) :
    searchAny mmcAt l = true ↔ ∃ l1 w l2, l = l1 ++ w ++ l2 ∧ mmcWord w := by
  rw [searchAny_iff]
  constructor
  · rintro ⟨l1, t, he, hp⟩
    obtain ⟨rest, ht, hdp⟩ := (mmcAt_iff t).mp hp
    obtain ⟨ds, d, r, hr, hne, hds, hd⟩ := (mmcDigitsP_iff rest).mp hdp
    refine ⟨l1, 'm' :: 'm' :: 'c' :: 'b' :: 'l' :: 'k' :: (ds ++ 'p' :: [d]), r, ?_, ?_⟩
    · rw [he, ht, hr]; simp
    · unfold mmcWord
      exact ⟨ds, [d], rfl, hne, by simp, hds, by simpa using hd⟩
  · rintro ⟨l1, w, l2, he, hw⟩
    unfold mmcWord at hw
    obtain ⟨ds1, ds2, hw, hne1, hne2, hds1, hds2⟩ := hw
    cases ds2 with
    | nil => exact absurd rfl hne2
    | cons d ds2t =>
      refine ⟨l1, w ++ l2, by rw [he, List.append_assoc], ?_⟩
      apply (mmcAt_iff _).mpr
      refine ⟨ds1 ++ 'p' :: d :: (ds2t ++ l2), by rw [hw]; simp, ?_⟩
      apply (mmcDigitsP_iff _).mpr
      exact ⟨ds1, d, ds2t ++ l2, rfl, hne1, hds1, hds2 d (by simp)⟩

/-- C4: the router's accept test is true exactly for sys-names matching
`[hs]d[a-z]\d+` or `mmcblk\d+p\d+` (in `re.search` semantics: some substring
lies in one of the two regex languages), and for every event whose sys-name
does not match, `card_event` performs no pipeline invocation. -/
theorem C4_router_filter :
    (∀ s, acceptSysName s = true ↔ sysNameMatchesSpec s) ∧
    (∀ action dev processed, ¬ sysNameMatchesSpec dev.sys_name →
        (card_event action dev processed).1 = none) := by
  have hiff : ∀ s, acceptSysName s = true ↔ sysNameMatchesSpec s := by
    intro s
    unfold acceptSysName sysNameMatchesSpec
    rw [Bool.or_eq_true, drv_search_iff, mmc_search_iff]
    constructor
    · rintro (⟨l1, w, l2, he, hw⟩ | ⟨l1, w, l2, he, hw⟩)
      · exact ⟨l1, w, l2, he, Or.inl hw⟩
      · exact ⟨l1, w, l2, he, Or.inr hw⟩
    · rintro ⟨l1, w, l2, he, hw | hw⟩
      · exact Or.inl ⟨l1, w, l2, he, hw⟩
      · exact Or.inr ⟨l1, w, l2, he, hw⟩
  refine ⟨hiff, ?_⟩
  intro action dev processed h
  have hacc : acceptSysName dev.sys_name = false := by
    cases hb : acceptSysName dev.sys_name
    · rfl
    · exact absurd ((hiff _).mp hb) h
  unfold card_event
  simp [hacc]

/-- C4 witness: an event for sys-name `loop0` produces no invocation. -/
theorem C4_router_filter_witness : (card_event "add" devC4 []).1 = none :=
  C4_router_filter.2 "add" devC4 []
    (fun h => absurd ((C4_router_filter.1 devC4.sys_name).mpr h) (by decide))

/-! ## Claim C6 -/

/-- C6 counterexample: with one TREE grab and 108 matched files the total
weight is 110; the values pushed to the notifier are the raw `progress`
counter, not `floor(progress*100/totalWeight)` (the pushed 10 would have to
be 9), the counter exceeds 100 (110 is pushed), and the final success push
of 100 is smaller than the preceding 110, breaking monotonicity. -/
theorem C6_progress_cx :
    (handle_card_insert cfgC6 cardC6 true "/dev/sda1" "c" ["/dev/sda1"]).pushes.map
        AppState.progress =
      [0, 10, 20, 30, 40, 50, 60, 70, 80, 90, 100, 110, 100] ∧
    (handle_card_insert cfgC6 cardC6 true "/dev/sda1" "c" ["/dev/sda1"]).finalState.status =
      AppStatus.READY ∧
    scanTotal cardC6 cfgC6.grabs = 110 ∧
    10 * 100 / 110 = 9 := by
  set_option maxRecDepth 10000 in decide

/-- Appending a value dominating a non-decreasing list keeps it
non-decreasing. -/
theorem chain'_le_append (x : Nat) : ∀ l : List Nat,
    List.Chain' (fun a b => a ≤ b) l → (∀ y ∈ l, y ≤ x) →
    List.Chain' (fun a b => a ≤ b) (l ++ [x]) := by
  intro l
  induction l with
  | nil => intro _ _; simp
  | cons a l ih =>
    intro h hx
    rw [List.cons_append, List.chain'_cons']
    constructor
    · intro b hb
      cases l with
      | nil =>
        simp at hb
        subst hb
        exact hx a (by simp)
      | cons c l' =>
        simp at hb
        subst hb
        exact (List.chain'_cons.mp h).1
    · exact ih h.tail (fun y hy => hx y (by simp [hy]))

/-- The conditional push preserves the pipeline invariant. -/
theorem pipeInv_push (mc : Nat) (cid : String) (st : PipeSt) (h : PipeInv st) :
    PipeInv (pushIfDiv10 mc cid st) := by
  unfold PipeInv at h ⊢
  obtain ⟨hch, hb, hsp, hsl⟩ := h
  unfold pushIfDiv10
  by_cases hp : st.progress % 10 = 0
  · rw [if_pos hp]
    refine ⟨?_, ?_, hp, le_refl _⟩
    · show List.Chain' (fun a b => a ≤ b)
        ((st.pushes ++ [(⟨AppStatus.BUSY, mc, st.progress, cid⟩ : AppState)]).map AppState.progress)
      rw [List.map_append]
      refine chain'_le_append st.progress _ hch ?_
      intro y hy
      obtain ⟨a, ha, rfl⟩ := List.mem_map.mp hy
      exact (hb a ha).2
    · intro a ha
      rcases List.mem_append.mp ha with h1 | h1
      · exact hb a h1
      · have h2 : a = ⟨AppStatus.BUSY, mc, st.progress, cid⟩ := by simpa using h1
        subst h2
        exact ⟨hp, le_refl _⟩
  · rw [if_neg hp]
    exact ⟨hch, hb, hsp, hsl⟩

/-- Incrementing the counter (with the debug division) preserves the
invariant. -/
theorem pipeInv_bump (total mc : Nat) (cid : String) (st : PipeSt) (h : PipeInv st) :
    PipeInv (bumpProgress total mc cid st) := by
  unfold bumpProgress
  apply pipeInv_push
  unfold PipeInv at h ⊢
  obtain ⟨hch, hb, hsp, hsl⟩ := h
  refine ⟨hch, ?_, hsp, Nat.le_succ_of_le hsl⟩
  intro a ha
  exact ⟨(hb a ha).1, Nat.le_succ_of_le (hb a ha).2⟩

/-- Copying one file preserves the invariant. -/
theorem pipeInv_copyFile (total mc : Nat) (cid : String) (i : Nat) (f : SrcFile)
    (st : PipeSt) (h : PipeInv st) : PipeInv (copyFileStep total mc cid i f st) := by
  unfold copyFileStep
  apply pipeInv_bump
  unfold PipeInv at h ⊢
  exact h

/-- Folding the file copies preserves the invariant. -/
theorem pipeInv_copyFold (total mc : Nat) (cid : String) (i : Nat) :
    ∀ (files : List SrcFile) (st : PipeSt), PipeInv st →
      PipeInv (files.foldl (fun s f => copyFileStep total mc cid i f s) st) := by
  intro files
  induction files with
  | nil => intro st h; exact h
  | cons f fs ih =>
    intro st h
    rw [List.foldl_cons]
    exact ih _ (pipeInv_copyFile total mc cid i f st h)

/-- One grab's copy-loop body preserves the invariant. -/
theorem pipeInv_copyGrab (cfg : AppConfig) (total mc : Nat) (cid : String)
    (files : List SrcFile) (st : PipeSt) (ig : Nat × GrabConfig) (h : PipeInv st) :
    PipeInv (copyGrabStep cfg total mc cid files st ig) := by
  unfold copyGrabStep
  apply pipeInv_bump
  have h1 := pipeInv_copyFold total mc cid ig.1 files st h
  by_cases hd : (cfg.delete_after_copy && !ig.2.never_delete) = true
  · rw [if_pos hd]
    unfold PipeInv at h1 ⊢
    exact h1
  · rw [if_neg hd]
    exact h1

/-- The whole copy pass preserves the invariant. -/
theorem pipeInv_copyPass (cfg : AppConfig) (total mc : Nat) (cid : String)
    (files : List SrcFile) (st : PipeSt) (h : PipeInv st) :
    PipeInv (copyPass cfg total mc cid files st) := by
  unfold copyPass
  generalize cfg.grabs.enum = l
  induction l generalizing st with
  | nil => exact h
  | cons ig rest ih =>
    rw [List.foldl_cons]
    exact ih _ (pipeInv_copyGrab cfg total mc cid files st ig h)

/-- The organize loop preserves the invariant (also when it aborts). -/
theorem pipeInv_organizePass (total mc : Nat) (cid : String) (hasFiles : Bool) :
    ∀ (l : List (Nat × GrabConfig)) (st : PipeSt), PipeInv st →
      PipeInv (organizePass total mc cid hasFiles l st).1 := by
  intro l
  induction l with
  | nil => intro st h; exact h
  | cons ig rest ih =>
    intro st h
    unfold organizePass
    by_cases hc : ig.2.rename_method = RenameMethod.NONE ∧ hasFiles = true
    · rw [if_pos hc]
      unfold PipeInv at h ⊢
      exact h
    · rw [if_neg hc]
      apply ih
      apply pipeInv_bump
      unfold PipeInv at h ⊢
      exact h

/-- Structure of every successfully-mounted run: either the zero-media-count
short cut, or a full run whose pushes are the initial snapshot, the loop
pushes of an invariant-satisfying state, and one final snapshot that is
READY/100 on success or ERROR/last-stored-progress on failure. -/
theorem handle_insert_shape (cfg : AppConfig) (card : String → List String)
    (node cid : String) (processed : List String) :
    ((handle_card_insert cfg card true node cid processed).pushes =
        [⟨AppStatus.BUSY, 0, 0, cid⟩, ⟨AppStatus.READY, 0, 100, cid⟩] ∧
      (handle_card_insert cfg card true node cid processed).finalState =
        ⟨AppStatus.READY, 0, 100, cid⟩) ∨
    ∃ st2 : PipeSt, PipeInv st2 ∧
      (handle_card_insert cfg card true node cid processed).pushes =
        ⟨AppStatus.BUSY, 0, 0, cid⟩ :: st2.pushes ++
          [(handle_card_insert cfg card true node cid processed).finalState] ∧
      (((handle_card_insert cfg card true node cid processed).finalState.status =
            AppStatus.READY ∧
          (handle_card_insert cfg card true node cid processed).finalState.progress = 100) ∨
       ((handle_card_insert cfg card true node cid processed).finalState.status =
            AppStatus.ERROR ∧
          (handle_card_insert cfg card true node cid processed).finalState.progress =
            st2.stateProgress)) := by
  have hst0 : PipeInv ⟨0, 0, [], [], [], [], false⟩ := by
    unfold PipeInv
    refine ⟨?_, ?_, ?_, ?_⟩ <;> simp
  unfold handle_card_insert
  rw [if_neg (by decide : ¬(true = false))]
  by_cases hmc : (scanFiles card cfg.grabs).length = 0
  · rw [if_pos hmc]
    exact Or.inl ⟨rfl, rfl⟩
  · rw [if_neg hmc]
    have h1 : PipeInv (copyPass cfg (scanTotal card cfg.grabs)
        (scanFiles card cfg.grabs).length cid (scanFiles card cfg.grabs)
        ⟨0, 0, [], [], [], [], false⟩) :=
      pipeInv_copyPass cfg _ _ cid _ _ hst0
    have h2 : PipeInv (organizePass (scanTotal card cfg.grabs)
        (scanFiles card cfg.grabs).length cid (!(scanFiles card cfg.grabs).isEmpty)
        cfg.grabs.enum (copyPass cfg (scanTotal card cfg.grabs)
          (scanFiles card cfg.grabs).length cid (scanFiles card cfg.grabs)
          ⟨0, 0, [], [], [], [], false⟩)).1 :=
      pipeInv_organizePass _ _ cid _ _ _ h1
    by_cases hr : (organizePass (scanTotal card cfg.grabs)
        (scanFiles card cfg.grabs).length cid (!(scanFiles card cfg.grabs).isEmpty)
        cfg.grabs.enum (copyPass cfg (scanTotal card cfg.grabs)
          (scanFiles card cfg.grabs).length cid (scanFiles card cfg.grabs)
          ⟨0, 0, [], [], [], [], false⟩)).2 = true
    · rw [if_pos hr]
      exact Or.inr ⟨_, h2, rfl, Or.inr ⟨rfl, rfl⟩⟩
    · rw [if_neg hr]
      exact Or.inr ⟨_, h2, rfl, Or.inl ⟨rfl, rfl⟩⟩

/-- C6 amended: the snapshots pushed within one run carry the **raw**
`progress` counter (the floor-percentage formula appears only in debug
logging, and the raw counter can exceed 100): every pushed value is a
multiple of ten, the pushed values are monotonically non-decreasing up to
but excluding the final snapshot, and on successful completion the final
pushed value is exactly 100 (possibly smaller than an earlier push). -/
theorem C6_progress_amended (cfg : AppConfig) (card : String → List String)
    (node cid : String) (processed : List String) :
    List.Chain' (fun a b => a ≤ b)
      (((handle_card_insert cfg card true node cid processed).pushes.map
          AppState.progress).dropLast) ∧
    (∀ a ∈ (handle_card_insert cfg card true node cid processed).pushes,
        a.progress % 10 = 0) ∧
    ((handle_card_insert cfg card true node cid processed).finalState.status =
        AppStatus.READY →
      ((handle_card_insert cfg card true node cid processed).pushes.map
          AppState.progress).getLast? = some 100) := by
  rcases handle_insert_shape cfg card node cid processed with
    ⟨hp, hf⟩ | ⟨st2, hInv, hp, hfin⟩
  · refine ⟨?_, ?_, ?_⟩
    · rw [hp]; simp
    · intro a ha
      rw [hp] at ha
      rcases List.mem_cons.mp ha with rfl | ha
      · simp
      · have h2 : a = ⟨AppStatus.READY, 0, 100, cid⟩ := by simpa using ha
        subst h2
        simp
    · intro _
      rw [hp]
      simp
  · unfold PipeInv at hInv
    obtain ⟨hch, hb, hsp, hspl⟩ := hInv
    refine ⟨?_, ?_, ?_⟩
    · rw [hp]
      simp only [List.map_append, List.map_cons, List.map_nil]
      rw [List.dropLast_concat, List.chain'_cons']
      exact ⟨fun b _ => Nat.zero_le b, hch⟩
    · intro a ha
      rw [hp] at ha
      rcases List.mem_append.mp ha with h1 | h1
      · rcases List.mem_cons.mp h1 with rfl | h1
        · simp
        · exact (hb a h1).1
      · have h2 : a = (handle_card_insert cfg card true node cid processed).finalState := by
          simpa using h1
        subst h2
        rcases hfin with ⟨hstat, hprog⟩ | ⟨hstat, hprog⟩
        · rw [hprog]
        · rw [hprog]; exact hsp
    · intro hready
      rcases hfin with ⟨hstat, hprog⟩ | ⟨hstat, hprog⟩
      · rw [hp]
        simp only [List.map_append, List.map_cons, List.map_nil]
        rw [List.getLast?_concat, hprog]
      · have hcontra : AppStatus.ERROR = AppStatus.READY := by rw [← hstat, hready]
        cases hcontra

/-- C6 amended witness at a small successful run. -/
theorem C6_progress_amended_witness :
    List.Chain' (fun a b => a ≤ b)
      (((handle_card_insert cfgC6 cardC6w true "/dev/sda1" "c" ["/dev/sda1"]).pushes.map
          AppState.progress).dropLast) ∧
    ((handle_card_insert cfgC6 cardC6w true "/dev/sda1" "c" ["/dev/sda1"]).pushes.map
        AppState.progress).getLast? = some 100 := by
  have h := C6_progress_amended cfgC6 cardC6w "/dev/sda1" "c" ["/dev/sda1"]
  exact ⟨h.1, h.2.2 (by decide)⟩
